import Mathlib

/-!
Verification of the project-creation workflow of the `createproject` package
(`src/packages/createproject/src/utils.ts`).

The effectful TypeScript functions are shallowly embedded as pure Lean
functions over an explicit world state (a file system modelled as an
association list from paths to nodes, plus an ordered log of emitted
messages).  External effects (the npm probe, the template download, the
dependency install, the git init) are supplied by an `Env` record, so that
each function is a deterministic state transformer returning the next state
together with an optional thrown error message.
-/

namespace Diez

/-- A file-system node: a directory or a file with string contents. -/
inductive FsNode where
  | dir : FsNode
  | file : String → FsNode
deriving DecidableEq, Repr

/-- Severity of a logged message (`Log.info` / `Log.warning`). -/
inductive LogLevel where
  | info : LogLevel
  | warning : LogLevel
deriving DecidableEq, Repr

/-- World state threaded through the embedded workflow: the file system and
the ordered list of messages logged so far. -/
structure WorldState where
  fs : List (String × FsNode)
  log : List (LogLevel × String)
deriving DecidableEq, Repr

/-- `existsSync`: a path exists when the association list has an entry for it. -/
def existsFs (fs : List (String × FsNode)) (p : String) : Bool :=
  (fs.lookup p).isSome

/-- `lstatSync(p).isDirectory()`. -/
def isDirAt (fs : List (String × FsNode)) (p : String) : Bool :=
  fs.lookup p == some FsNode.dir

/-- `ensureDirSync`: create the directory entry when the path is absent. -/
def ensureDirFs (fs : List (String × FsNode)) (p : String) : List (String × FsNode) :=
  if existsFs fs p then fs else (p, FsNode.dir) :: fs

/-- `path.join` of a directory and a relative segment. -/
def joinPath (a b : String) : String := a ++ "/" ++ b

/-- `path.resolve` of an absolute base and a relative segment. -/
def resolvePath (a b : String) : String := a ++ "/" ++ b

/-- Split a character list at every occurrence of a separator character. -/
def splitOnCharGo (sep : Char) : List Char → List Char → List (List Char)
  | [], cur => [cur.reverse]
  | c :: rest, cur =>
    if c = sep then cur.reverse :: splitOnCharGo sep rest []
    else splitOnCharGo sep rest (c :: cur)

/-- `path.basename`: the last `/`-separated component. -/
def basenameOf (s : String) : String :=
  String.mk (((splitOnCharGo '/' s.data []).getLast?).getD s.data)

/-- Boolean string-prefix test, kept in `List Char` form for proofs. -/
def strStartsWith (s pre : String) : Bool := pre.data.isPrefixOf s.data

/-- Drop the first `n` characters of a string, in `List Char` form. -/
def strDrop (s : String) (n : Nat) : String := String.mk (s.data.drop n)

/-- `path.relative` for the case used here: strip the base directory. -/
def relativePath (base p : String) : String :=
  if strStartsWith p (base ++ "/") then strDrop p (base.length + 1) else p

/-- Append a message to the log. -/
def logMsg (lvl : LogLevel) (m : String) (st : WorldState) : WorldState :=
  { st with log := st.log ++ [(lvl, m)] }

/-- A path lies at or below a base directory. -/
def underPath (base p : String) : Bool := p == base || strStartsWith p (base ++ "/")

/-- Result of `validateNpmPackageName` (external library
`validate-npm-package-name`): validity flag plus error and warning lists
(an absent array is the empty list). -/
structure ValidationResult where
  validForNewPackages : Bool
  errors : List String
  warnings : List String
deriving DecidableEq, Repr

/-- Outcome of probing `npm config list` in `canUseNpm`: the spawn can
throw, the joined output can fail to be a string, or it yields an output
whose line decomposition is given. -/
inductive NpmProbe where
  | spawnThrew : NpmProbe
  | nonString : NpmProbe
  | output : List String → NpmProbe
deriving DecidableEq, Repr

/-- The environment of one `createProject` invocation: results of the
external effects, supplied as data. -/
structure Env where
  validation : ValidationResult
  yarnAvailable : Bool
  npmProbe : NpmProbe
  download : Option (List (String × String))
  tmpName : String
  bundledTemplate : List (String × String)
  diezVersion : String
  typescriptVersion : String
  installSucceeds : Bool
  gitSucceeds : Bool
deriving DecidableEq, Repr

/-- The marker line prefix `npm config list` uses for the working directory,
matched by the regex `^; cwd = (.*)$` in multiline mode. -/
def cwdMarker : String := "; cwd = "

/-- First line of the output matching `^; cwd = (.*)$`, with the captured
group (the rest of the line). -/
def findCwdLine (lines : List String) : Option String :=
  (lines.find? (fun l => strStartsWith l cwdMarker)).map (fun l => strDrop l cwdMarker.length)

/-- `canUseNpm` from `utils.ts`: true when the probe cannot be completed,
otherwise compares the extracted cwd path against the given root. -/
def canUseNpm (probe : NpmProbe) (root : String) : Bool :=
  match probe with
  | NpmProbe.spawnThrew => true
  | NpmProbe.nonString => true
  | NpmProbe.output lines =>
    match findCwdLine lines with
    | none => true
    | some path => path == root

/-- `validatePackageName` from `utils.ts`: succeeds silently on a valid
name; otherwise logs the collected warnings and throws. -/
def validatePackageNameRun (v : ValidationResult) (packageName : String) (st : WorldState) :
    WorldState × Option String :=
  if v.validForNewPackages then (st, none)
  else
    let warnings := v.errors.map (fun m => " - " ++ m) ++ v.warnings.map (fun m => " - " ++ m)
    let st :=
      if warnings.isEmpty then st
      else warnings.foldl (fun s m => logMsg LogLevel.warning m s)
        (logMsg LogLevel.warning "Project name validation failed:" st)
    (st, some ("Unable to create project with name " ++ packageName ++ "."))

/-- `validateProjectRoot` from `utils.ts`: reject a non-directory at the
root, ensure the directory exists, reject an existing `package.json`, then
(unless yarn is used) require `canUseNpm`. -/
def validateProjectRootRun (probe : NpmProbe) (root : String) (useYarn : Bool) (st : WorldState) :
    WorldState × Option String :=
  if existsFs st.fs root && !(isDirAt st.fs root) then
    (st, some ("Found a non-directory at " ++ root ++ "."))
  else if existsFs (ensureDirFs st.fs root) (joinPath root "package.json") then
    ({ st with fs := ensureDirFs st.fs root },
     some ("A Node.js project already exists at " ++ root ++ "."))
  else if useYarn then ({ st with fs := ensureDirFs st.fs root }, none)
  else if !(canUseNpm probe root) then
    ({ st with fs := ensureDirFs st.fs root },
     some ("Unable to start an NPM process in " ++ root ++ "."))
  else ({ st with fs := ensureDirFs st.fs root }, none)

/-! ### Case transformations

Models of the `change-case` library used by `createTemplateProject`.  A
string is split into words (maximal runs of ASCII alphanumerics, with an
extra break at a lower-to-upper camel boundary); each transform re-cases
the words and joins them with its separator.  `lowerCase` is the plain
character-wise lower-casing (the `lower-case` package). -/

/-- A character belongs to a word: ASCII letter or digit. -/
def isWordChar (c : Char) : Bool := c.isAlpha || c.isDigit

/-- Append a finished word (accumulated in reverse) to the word list. -/
def flushWord (w : List Char) (acc : List (List Char)) : List (List Char) :=
  if w.isEmpty then acc else acc ++ [w.reverse]

/-- Word-splitting loop: `w` is the current word in reverse, `acc` the
finished words. -/
def splitWordsGo : List Char → List Char → List (List Char) → List (List Char)
  | [], w, acc => flushWord w acc
  | c :: rest, w, acc =>
    if !(isWordChar c) then splitWordsGo rest [] (flushWord w acc)
    else if c.isUpper && (match w with | p :: _ => p.isLower | [] => false) then
      splitWordsGo rest [c] (flushWord w acc)
    else splitWordsGo rest (c :: w) acc

/-- Split a name into its words. -/
def splitWords (s : String) : List (List Char) := splitWordsGo s.data [] []

/-- Lower-case every character of a word. -/
def toLowerWord (w : List Char) : List Char := w.map Char.toLower

/-- Upper-case every character of a word. -/
def toUpperWord (w : List Char) : List Char := w.map Char.toUpper

/-- Upper-case the first character, lower-case the rest. -/
def capitalizeWord (w : List Char) : List Char :=
  match w with
  | [] => []
  | c :: r => c.toUpper :: r.map Char.toLower

/-- Interleave a separator between words. -/
def joinWordsChars (sep : List Char) : List (List Char) → List Char
  | [] => []
  | [w] => w
  | w :: ws => w ++ sep ++ joinWordsChars sep ws

/-- Join transformed words with a separator. -/
def joinWords (sep : String) (ws : List (List Char)) : String :=
  String.mk (joinWordsChars sep.data ws)

/-- `pascalCase`: capitalized words, no separator. -/
def pascalCase (s : String) : String := joinWords "" ((splitWords s).map capitalizeWord)

/-- `camelCase`: first word lower, the rest capitalized, no separator. -/
def camelCase (s : String) : String :=
  match splitWords s with
  | [] => ""
  | w :: ws => joinWords "" (toLowerWord w :: ws.map capitalizeWord)

/-- `kebabCase`: lower words joined with `-`. -/
def kebabCase (s : String) : String := joinWords "-" ((splitWords s).map toLowerWord)

/-- `snakeCase`: lower words joined with `_`. -/
def snakeCase (s : String) : String := joinWords "_" ((splitWords s).map toLowerWord)

/-- `constantCase`: upper words joined with `_`. -/
def constantCase (s : String) : String := joinWords "_" ((splitWords s).map toUpperWord)

/-- `headerCase`: capitalized words joined with `-`. -/
def headerCase (s : String) : String := joinWords "-" ((splitWords s).map capitalizeWord)

/-- `dotCase`: lower words joined with `.`. -/
def dotCase (s : String) : String := joinWords "." ((splitWords s).map toLowerWord)

/-- `noCase`: lower words joined with a space. -/
def noCase (s : String) : String := joinWords " " ((splitWords s).map toLowerWord)

/-- `titleCase`: capitalized words joined with a space. -/
def titleCase (s : String) : String := joinWords " " ((splitWords s).map capitalizeWord)

/-- `lowerCase`: plain character-wise lower-casing of the whole string. -/
def lowerCase (s : String) : String := String.mk (s.data.map Char.toLower)

/-- The token set built in `createTemplateProject` (`utils.ts` lines
139-154): note that `nameLowerCase` is `lowerCase` applied to the
`pascalCase` of the name, not to the name itself. -/
def buildTokens (name : String) : List (String × String) :=
  let pascalCased := pascalCase name
  let lowerCased := lowerCase pascalCased
  [ ("openTag", "\x7b\x7b"),
    ("closeTag", "\x7d\x7d"),
    ("namePascalCase", pascalCased),
    ("nameLowerCase", lowerCased),
    ("nameKebabCase", kebabCase name),
    ("nameCamelCase", camelCase name),
    ("nameTitleCase", titleCase name),
    ("nameNoCase", noCase name),
    ("nameSnakeCase", snakeCase name),
    ("nameConstantCase", constantCase name),
    ("nameHeaderCase", headerCase name),
    ("nameDotCase", dotCase name) ]

/-- Value of a token by key, the empty string when absent. -/
def lookupToken (tokens : List (String × String)) (key : String) : String :=
  (tokens.lookup key).getD ""

/-! ### Token substitution and template output

`outputTemplatePackage` lives in the storage package, which is not under
`src/`; it is modelled from the spec. -/

/-- Opening placeholder delimiter.  Modelled from the spec: the substitution
engine uses custom delimiter markers "unlikely to reappear
post-substitution"; none of the token values produced by the workflow can
contain them. -/
def openDelim : Char := '«'

/-- Closing placeholder delimiter. -/
def closeDelim : Char := '»'

/-- Split a character list at the first closing delimiter, returning the
part before it and the remainder after it. -/
def splitAtClose : List Char → Option (List Char × List Char)
  | [] => none
  | c :: rest =>
    if c = closeDelim then some ([], rest)
    else
      match splitAtClose rest with
      | none => none
      | some (k, rem) => some (c :: k, rem)

theorem splitAtClose_length {l : List Char} {k rem : List Char}
    (h : splitAtClose l = some (k, rem)) : rem.length < l.length := by
  induction l generalizing k rem with
  | nil => simp [splitAtClose] at h
  | cons c rest ih =>
    unfold splitAtClose at h
    by_cases hc : c = closeDelim
    · simp [hc] at h
      obtain ⟨h1, h2⟩ := h
      subst h2
      simp
    · rw [if_neg hc] at h
      cases hsp : splitAtClose rest with
      | none => rw [hsp] at h; simp at h
      | some p =>
        obtain ⟨k', rem'⟩ := p
        rw [hsp] at h
        simp at h
        obtain ⟨h1, h2⟩ := h
        subst h2
        have := ih hsp
        simp
        omega

/-- Modelled from the spec: the placeholder-substitution scan of
`outputTemplatePackage`, with explicit fuel (one unit per consumed
character) so that it is structurally recursive.  On an opening delimiter
it reads the key up to the closing delimiter and emits the token's value
(empty for an unknown key); without a closing delimiter the rest is
emitted verbatim; other characters pass through. -/
def substCharsFuel (tokens : List (String × String)) : Nat → List Char → List Char
  | 0, l => l
  | fuel + 1, l =>
    match l with
    | [] => []
    | c :: rest =>
      if c = openDelim then
        match splitAtClose rest with
        | some (key, rem) =>
          (lookupToken tokens (String.mk key)).data ++ substCharsFuel tokens fuel rem
        | none => c :: rest
      else c :: substCharsFuel tokens fuel rest

/-- The substitution scan with enough fuel for the whole input. -/
def substCharsGo (tokens : List (String × String)) (l : List Char) : List Char :=
  substCharsFuel tokens l.length l

/-- Modelled from the spec: substitute every placeholder in a string. -/
def substituteTokens (tokens : List (String × String)) (s : String) : String :=
  String.mk (substCharsGo tokens s.data)

/-- No opening delimiter in the list is ever followed by a closing
delimiter: such a list is inert under the substitution scan. -/
def NoOC (l : List Char) : Prop :=
  ∀ l₁ l₂, l = l₁ ++ openDelim :: l₂ → closeDelim ∉ l₂

/-- All token values are free of the two delimiter characters. -/
def CleanTokens (tokens : List (String × String)) : Prop :=
  ∀ kv ∈ tokens, openDelim ∉ kv.2.data ∧ closeDelim ∉ kv.2.data

/-- One substitution pass over a template tree (relative path and content
of every file). -/
def applyTokensToTree (tokens : List (String × String)) (files : List (String × String)) :
    List (String × String) :=
  files.map (fun pc => (substituteTokens tokens pc.1, substituteTokens tokens pc.2))

/-- Modelled from the spec: `outputTemplatePackage` (storage package, not
under `src/`) writes the token-substituted template tree into the target
directory: a template file at relative path `p` with content `c` is written
to `target/subst(p)` with content `subst(c)`. -/
def outputTemplatePackage (files : List (String × String)) (target : String)
    (tokens : List (String × String)) (fs : List (String × FsNode)) : List (String × FsNode) :=
  (files.map (fun pc =>
    (joinPath target (substituteTokens tokens pc.1),
     FsNode.file (substituteTokens tokens pc.2)))) ++ fs

/-- The files of the file system lying below a directory, with their
relative paths: the materialized template read back by
`outputTemplatePackage`. -/
def filesUnder (fs : List (String × FsNode)) (rootDir : String) : List (String × String) :=
  fs.filterMap (fun pn =>
    match pn.2 with
    | FsNode.file c =>
      if strStartsWith pn.1 (rootDir ++ "/") then some (strDrop pn.1 (rootDir.length + 1), c)
      else none
    | FsNode.dir => none)

/-- `tar.x` piped from the download stream: every archive entry is written
below the extraction root. -/
def extractArchive (templateRoot : String) (archive : List (String × String))
    (fs : List (String × FsNode)) : List (String × FsNode) :=
  (archive.map (fun pc => (joinPath templateRoot pc.1, FsNode.file pc.2))) ++ fs

/-- `downloadAndExtractProject` from `utils.ts`: log the download message;
throw when the download yields no stream; otherwise extract the archive
below the template root. -/
def downloadAndExtractProjectRun (env : Env) (templateRoot : String) (st : WorldState) :
    WorldState × Option String :=
  let st := logMsg LogLevel.info "Downloading template project from the Diez CDN..." st
  match env.download with
  | none =>
    (st, some "Unable to download template project from examples.diez.org. Please try again.")
  | some archive => ({ st with fs := extractArchive templateRoot archive st.fs }, none)

/-- `createTemplateProject` from `utils.ts`: make the temporary extraction
root, download and extract the archive there, then output the template
package into the working directory with the full token set. -/
def createTemplateProjectRun (env : Env) (cwd : String) (name : String) (st : WorldState) :
    WorldState × Option String :=
  let templateRoot := resolvePath env.tmpName "examples"
  let st0 : WorldState := { st with fs := ensureDirFs st.fs templateRoot }
  match downloadAndExtractProjectRun env templateRoot st0 with
  | (st1, some e) => (st1, some e)
  | (st1, none) =>
    let tokens := buildTokens name
    ({ st1 with fs := outputTemplatePackage (filesUnder st1.fs templateRoot) cwd tokens st1.fs },
     none)

/-- The fixed token set of bare mode (`utils.ts` lines 171-176). -/
def bareTokens (env : Env) (packageName : String) : List (String × String) :=
  [ ("packageName", packageName),
    ("diezVersion", env.diezVersion),
    ("typescriptVersion", env.typescriptVersion),
    ("componentName", pascalCase (basenameOf packageName)) ]

/-- Template acquisition in `createProject` (`utils.ts` lines 170-187):
bare mode outputs the bundled template with the fixed token set into the
root; otherwise the remote template project is created, and on failure the
two retry/bare-mode warnings are logged before the error propagates. -/
def acquireTemplate (env : Env) (packageName : String) (bare : Bool) (cwd root : String)
    (st : WorldState) : WorldState × Option String :=
  if bare then
    ({ st with
        fs := outputTemplatePackage env.bundledTemplate root (bareTokens env packageName) st.fs },
     none)
  else
    match createTemplateProjectRun env cwd packageName st with
    | (st1, some e) =>
      (logMsg LogLevel.warning
        "If you would like to generate an empty project, you can re-run this command with --bare."
        (logMsg LogLevel.warning
          "Unable to download template project from the Diez CDN. Are you connected to the internet?"
          st1), some e)
    | (st1, none) => (st1, none)

/-- The tail of `createProject` (`utils.ts` lines 189-222): the dependency
install (a warning on failure), the git initialization (silently ignored on
failure, an info message on success), and the success report.  It never
throws. -/
def installAndReport (env : Env) (useYarn bare : Bool) (cwd root : String) (st : WorldState) :
    WorldState × Option String :=
  let st := logMsg LogLevel.info
    "Installing dependencies. This might take a couple of minutes." st
  let st :=
    if env.installSucceeds then st
    else
      logMsg LogLevel.warning
        ("You may need to run " ++ (if useYarn then "yarn" else "npm") ++
         " install before diez commands will work.")
        (logMsg LogLevel.warning
          "Unable to install dependencies. Are you connected to the Internet?" st)
  let st :=
    if env.gitSucceeds then
      logMsg LogLevel.info ("Initialized a Git repository at " ++ root) st
    else st
  let st := logMsg LogLevel.info
    ("Success! A new Diez (DS) has been created at " ++ root ++ ".\n") st
  let st := logMsg LogLevel.info
    ("In that directory, the diez command line utility can be invoked using:\n  " ++
     (if useYarn then "yarn" else "npm run") ++ " diez\n") st
  let st :=
    if bare then
      logMsg LogLevel.info
        ("To see a list of available commands, you can run:\n  cd " ++
         relativePath cwd root ++ "\n  " ++ (if useYarn then "yarn" else "npm run") ++
         " diez --help") st
    else
      logMsg LogLevel.info "Check out https://beta.diez.org/getting-started to learn more."
        (logMsg LogLevel.info
          ("To get started, we suggest running:\n  cd " ++ relativePath cwd root ++
           "\n  " ++ (if useYarn then "yarn" else "npm run") ++ " demo\n") st)
  (st, none)

/-- `createProject` from `utils.ts`: validate the name, pick the package
manager, validate the root, acquire the template (bundled bare template or
remote archive), then install dependencies and report (non-fatal tail). -/
def createProjectRun (env : Env) (packageName : String) (bare : Bool) (cwd : String)
    (st : WorldState) : WorldState × Option String :=
  match validatePackageNameRun env.validation packageName st with
  | (stv, some e) => (stv, some e)
  | (stv, none) =>
    let useYarn := env.yarnAvailable
    let root := resolvePath cwd (basenameOf packageName)
    match validateProjectRootRun env.npmProbe root useYarn stv with
    | (str, some e) => (str, some e)
    | (str, none) =>
      match acquireTemplate env packageName bare cwd root str with
      | (sta, some e) => (sta, some e)
      | (sta, none) => installAndReport env useYarn bare cwd root sta

/-- A sample environment for concrete runs: every external effect succeeds
and the npm probe reports the working directory `/w/my-app`. -/
def sampleEnv : Env :=
  { validation := { validForNewPackages := true, errors := [], warnings := [] }
    yarnAvailable := true
    npmProbe := NpmProbe.output ["; cwd = /w/my-app"]
    download := some [("«nameKebabCase»/src/index.ts", "hello «namePascalCase»")]
    tmpName := "/tmp/scratch"
    bundledTemplate := [("package.json", "«packageName»")]
    diezVersion := "10.0.0-beta.0"
    typescriptVersion := "^3.7.3"
    installSucceeds := true
    gitSucceeds := true }

/-- The empty world state. -/
def emptyState : WorldState := { fs := [], log := [] }

/-- `sampleEnv` with yarn unavailable and an npm probe whose cwd line
points at a different directory. -/
def npmElsewhereEnv : Env := { sampleEnv with
  yarnAvailable := false
  npmProbe := NpmProbe.output ["; cwd = /elsewhere"] }

/-- `sampleEnv` with a name-validation result that rejects the name. -/
def invalidNameEnv : Env := { sampleEnv with
  validation := { validForNewPackages := false
                  errors := ["name can no longer contain capital letters"]
                  warnings := [] } }

/-! ### Basic lemmas about the state model -/

theorem logMsg_fs (lvl : LogLevel) (m : String) (st : WorldState) :
    (logMsg lvl m st).fs = st.fs := rfl

theorem foldl_logMsg_fs (ws : List String) (st : WorldState) :
    (ws.foldl (fun s m => logMsg LogLevel.warning m s) st).fs = st.fs := by
  induction ws generalizing st with
  | nil => rfl
  | cons w ws ih =>
    rw [List.foldl_cons, ih]
    rfl

theorem ensureDirFs_cases (fs : List (String × FsNode)) (p : String) :
    ensureDirFs fs p = fs ∨ ensureDirFs fs p = (p, FsNode.dir) :: fs := by
  unfold ensureDirFs
  by_cases h : existsFs fs p = true
  · exact Or.inl (if_pos h)
  · exact Or.inr (if_neg h)

theorem joinPath_data (a b : String) : (joinPath a b).data = a.data ++ '/' :: b.data := by
  simp [joinPath, String.data_append]

theorem joinPath_ne_self (a b : String) : joinPath a b ≠ a := by
  intro h
  have hd := congrArg (fun s : String => s.data.length) h
  simp [joinPath_data] at hd

theorem existsFs_cons_ne (fs : List (String × FsNode)) (q p : String) (n : FsNode)
    (h : p ≠ q) : existsFs ((q, n) :: fs) p = existsFs fs p := by
  simp [existsFs, List.lookup, beq_eq_false_iff_ne.mpr h]

/-- The state returned by `validateProjectRootRun`: the input state before
the first check, the input state with the root directory ensured afterwards. -/
theorem validateProjectRootRun_state (probe : NpmProbe) (root : String) (useYarn : Bool)
    (st : WorldState) :
    (validateProjectRootRun probe root useYarn st).1 = st ∨
    (validateProjectRootRun probe root useYarn st).1 =
      { st with fs := ensureDirFs st.fs root } := by
  unfold validateProjectRootRun
  split_ifs <;> simp

/-- On success, `validateProjectRootRun` returns the state with the root
directory ensured. -/
theorem validateProjectRootRun_ok (probe : NpmProbe) (root : String) (useYarn : Bool)
    (st : WorldState) (h : (validateProjectRootRun probe root useYarn st).2 = none) :
    validateProjectRootRun probe root useYarn st =
      ({ st with fs := ensureDirFs st.fs root }, none) := by
  unfold validateProjectRootRun at h ⊢
  split_ifs at h ⊢ <;> simp_all

/-- `installAndReport` never throws. -/
theorem installAndReport_ok (env : Env) (useYarn bare : Bool) (cwd root : String)
    (st : WorldState) : (installAndReport env useYarn bare cwd root st).2 = none := rfl

/-- `installAndReport` only logs: the file system is untouched. -/
theorem installAndReport_fs (env : Env) (useYarn bare : Bool) (cwd root : String)
    (st : WorldState) : (installAndReport env useYarn bare cwd root st).1.fs = st.fs := by
  unfold installAndReport
  dsimp only []
  split_ifs <;> rfl

/-- The success report is always logged by `installAndReport`. -/
theorem installAndReport_log_success (env : Env) (useYarn bare : Bool) (cwd root : String)
    (st : WorldState) :
    (LogLevel.info, "Success! A new Diez (DS) has been created at " ++ root ++ ".\n")
      ∈ (installAndReport env useYarn bare cwd root st).1.log := by
  unfold installAndReport
  dsimp only []
  split_ifs <;> simp [logMsg]

/-- When the install fails, `installAndReport` logs the manual-install
warning. -/
theorem installAndReport_log_installWarning (env : Env) (useYarn bare : Bool)
    (cwd root : String) (st : WorldState) (h : env.installSucceeds = false) :
    (LogLevel.warning,
      "You may need to run " ++ (if useYarn then "yarn" else "npm") ++
        " install before diez commands will work.")
      ∈ (installAndReport env useYarn bare cwd root st).1.log := by
  unfold installAndReport
  rw [h]
  dsimp only []
  split_ifs <;> simp_all [logMsg]

/-- Bare-mode template acquisition always succeeds, writing the bundled
template into the root. -/
theorem acquireTemplate_bare (env : Env) (packageName : String) (cwd root : String)
    (st : WorldState) :
    acquireTemplate env packageName true cwd root st =
      ({ st with
          fs := outputTemplatePackage env.bundledTemplate root (bareTokens env packageName) st.fs },
       none) := rfl

/-- `createTemplateProject` when the download yields no stream: the
download error is thrown; the only state changes so far are the temporary
extraction root and the download log message. -/
theorem createTemplateProjectRun_downloadNone (env : Env) (cwd name : String)
    (st : WorldState) (h : env.download = none) :
    createTemplateProjectRun env cwd name st =
      ({ fs := ensureDirFs st.fs (resolvePath env.tmpName "examples"),
         log := st.log ++ [(LogLevel.info, "Downloading template project from the Diez CDN...")] },
       some "Unable to download template project from examples.diez.org. Please try again.") := by
  unfold createTemplateProjectRun downloadAndExtractProjectRun
  rw [h]
  rfl

/-- `createTemplateProject` when the download succeeds: the archive is
extracted below the temporary root and the token-substituted template tree
is output into the working directory. -/
theorem createTemplateProjectRun_some (env : Env) (cwd name : String) (st : WorldState)
    (archive : List (String × String)) (h : env.download = some archive) :
    createTemplateProjectRun env cwd name st =
      ({ fs := outputTemplatePackage
           (filesUnder
             (extractArchive (resolvePath env.tmpName "examples") archive
               (ensureDirFs st.fs (resolvePath env.tmpName "examples")))
             (resolvePath env.tmpName "examples"))
           cwd (buildTokens name)
           (extractArchive (resolvePath env.tmpName "examples") archive
             (ensureDirFs st.fs (resolvePath env.tmpName "examples"))),
         log := st.log ++ [(LogLevel.info, "Downloading template project from the Diez CDN...")] },
       none) := by
  unfold createTemplateProjectRun downloadAndExtractProjectRun
  rw [h]
  rfl

/-! ### Lemmas about the substitution scan -/

theorem splitAtClose_eq_none_iff (l : List Char) : splitAtClose l = none ↔ closeDelim ∉ l := by
  induction l with
  | nil => simp [splitAtClose]
  | cons c rest ih =>
    unfold splitAtClose
    by_cases hc : c = closeDelim
    · subst hc
      simp
    · rw [if_neg hc]
      cases hsp : splitAtClose rest with
      | none =>
        have hnr : closeDelim ∉ rest := ih.mp hsp
        simp [Ne.symm hc, hnr]
      | some p =>
        obtain ⟨k, rem⟩ := p
        have hmem : closeDelim ∈ rest := by
          by_contra hn
          rw [ih.mpr hn] at hsp
          exact absurd hsp (by simp)
        simp [hmem]

theorem substCharsFuel_succ_cons (tokens : List (String × String)) (fuel : Nat) (c : Char)
    (rest : List Char) :
    substCharsFuel tokens (fuel + 1) (c :: rest) =
      if c = openDelim then
        match splitAtClose rest with
        | some (key, rem) =>
          (lookupToken tokens (String.mk key)).data ++ substCharsFuel tokens fuel rem
        | none => c :: rest
      else c :: substCharsFuel tokens fuel rest := rfl

theorem substCharsFuel_congr (tokens : List (String × String)) :
    ∀ f g l, l.length ≤ f → l.length ≤ g →
      substCharsFuel tokens f l = substCharsFuel tokens g l := by
  intro f
  induction f with
  | zero =>
    intro g l hf hg
    have hl : l = [] := List.length_eq_zero.mp (Nat.le_zero.mp hf)
    subst hl
    cases g <;> rfl
  | succ f ih =>
    intro g l hf hg
    cases l with
    | nil => cases g <;> rfl
    | cons c rest =>
      cases g with
      | zero => simp at hg
      | succ g' =>
        simp only [List.length_cons, Nat.succ_le_succ_iff] at hf hg
        rw [substCharsFuel_succ_cons, substCharsFuel_succ_cons]
        by_cases hc : c = openDelim
        · rw [if_pos hc, if_pos hc]
          cases hsp : splitAtClose rest with
          | none => rfl
          | some p =>
            obtain ⟨k, rem⟩ := p
            have hlen := splitAtClose_length hsp
            dsimp only []
            rw [ih g' rem (by omega) (by omega)]
        · rw [if_neg hc, if_neg hc]
          rw [ih g' rest hf hg]

theorem substCharsGo_cons_ne (tokens : List (String × String)) (c : Char) (rest : List Char)
    (h : c ≠ openDelim) :
    substCharsGo tokens (c :: rest) = c :: substCharsGo tokens rest := by
  show substCharsFuel tokens (c :: rest).length (c :: rest) = _
  rw [List.length_cons, substCharsFuel_succ_cons, if_neg h]
  rfl

theorem substCharsGo_open_some (tokens : List (String × String)) (rest key rem : List Char)
    (h : splitAtClose rest = some (key, rem)) :
    substCharsGo tokens (openDelim :: rest) =
      (lookupToken tokens (String.mk key)).data ++ substCharsGo tokens rem := by
  show substCharsFuel tokens (openDelim :: rest).length (openDelim :: rest) = _
  rw [List.length_cons, substCharsFuel_succ_cons, if_pos rfl, h]
  dsimp only []
  rw [substCharsFuel_congr tokens rest.length rem.length rem
    (Nat.le_of_lt (splitAtClose_length h)) (Nat.le_refl _)]
  rfl

theorem substCharsGo_open_none (tokens : List (String × String)) (rest : List Char)
    (h : splitAtClose rest = none) :
    substCharsGo tokens (openDelim :: rest) = openDelim :: rest := by
  show substCharsFuel tokens (openDelim :: rest).length (openDelim :: rest) = _
  rw [List.length_cons, substCharsFuel_succ_cons, if_pos rfl, h]

theorem NoOC_nil : NoOC [] := by
  intro l₁ l₂ h
  exact absurd h (by simp)

theorem NoOC_of_close_not_mem {l : List Char} (h : closeDelim ∉ l) : NoOC l := by
  intro l₁ l₂ heq hmem
  apply h
  rw [heq]
  exact List.mem_append_right _ (List.mem_cons_of_mem _ hmem)

theorem NoOC_cons {c : Char} {l : List Char} (hc : c ≠ openDelim) (h : NoOC l) :
    NoOC (c :: l) := by
  intro l₁ l₂ heq
  cases l₁ with
  | nil =>
    simp only [List.nil_append, List.cons.injEq] at heq
    exact absurd heq.1 hc
  | cons x l₁ =>
    simp only [List.cons_append, List.cons.injEq] at heq
    exact h l₁ l₂ heq.2

theorem NoOC_append {a b : List Char} (ha : openDelim ∉ a) (hb : NoOC b) : NoOC (a ++ b) := by
  induction a with
  | nil => simpa using hb
  | cons x a ih =>
    have hx : x ≠ openDelim := by
      intro hxeq
      subst hxeq
      exact ha (List.mem_cons_self _ _)
    have ha' : openDelim ∉ a := fun h => ha (List.mem_cons_of_mem x h)
    exact NoOC_cons hx (ih ha')

theorem substCharsGo_inert (tokens : List (String × String)) :
    ∀ l, NoOC l → substCharsGo tokens l = l := by
  intro l
  induction l with
  | nil => intro _; rfl
  | cons c rest ih =>
    intro h
    by_cases hc : c = openDelim
    · subst hc
      have hnc : closeDelim ∉ rest := h [] rest rfl
      exact substCharsGo_open_none tokens rest ((splitAtClose_eq_none_iff rest).mpr hnc)
    · rw [substCharsGo_cons_ne tokens c rest hc]
      rw [ih (fun l₁ l₂ heq => h (c :: l₁) l₂ (by rw [heq]; rfl))]

theorem lookupToken_clean {tokens : List (String × String)} (hc : CleanTokens tokens)
    (key : String) :
    openDelim ∉ (lookupToken tokens key).data ∧ closeDelim ∉ (lookupToken tokens key).data := by
  induction tokens with
  | nil => simp [lookupToken, List.lookup]
  | cons kv rest ih =>
    obtain ⟨k, v⟩ := kv
    by_cases hkey : (key == k) = true
    · simp only [lookupToken, List.lookup, hkey, Option.getD_some]
      exact hc (k, v) (List.mem_cons_self _ _)
    · have hkey' : (key == k) = false := Bool.not_eq_true _ ▸ eq_false_of_ne_true hkey
      simp only [lookupToken, List.lookup, hkey']
      exact ih (fun kv hm => hc kv (List.mem_cons_of_mem _ hm))

theorem substCharsGo_NoOC (tokens : List (String × String)) (hc : CleanTokens tokens) :
    ∀ n l, l.length ≤ n → NoOC (substCharsGo tokens l) := by
  intro n
  induction n with
  | zero =>
    intro l hl
    have hnil : l = [] := List.length_eq_zero.mp (Nat.le_zero.mp hl)
    subst hnil
    exact NoOC_nil
  | succ n ih =>
    intro l hl
    cases l with
    | nil => exact NoOC_nil
    | cons c rest =>
      simp only [List.length_cons, Nat.succ_le_succ_iff] at hl
      by_cases hco : c = openDelim
      · subst hco
        cases hsp : splitAtClose rest with
        | none =>
          rw [substCharsGo_open_none tokens rest hsp]
          apply NoOC_of_close_not_mem
          intro hmem
          rcases List.mem_cons.mp hmem with h | h
          · exact absurd h (by decide)
          · exact absurd h ((splitAtClose_eq_none_iff rest).mp hsp)
        | some p =>
          obtain ⟨key, rem⟩ := p
          rw [substCharsGo_open_some tokens rest key rem hsp]
          apply NoOC_append (lookupToken_clean hc (String.mk key)).1
          have hlen := splitAtClose_length hsp
          exact ih rem (by omega)
      · rw [substCharsGo_cons_ne tokens c rest hco]
        exact NoOC_cons hco (ih rest (by omega))

/-- Single-string idempotence of the substitution pass, for any token set
whose values contain no delimiter character. -/
theorem substituteTokens_idem (tokens : List (String × String)) (hc : CleanTokens tokens)
    (s : String) :
    substituteTokens tokens (substituteTokens tokens s) = substituteTokens tokens s := by
  unfold substituteTokens
  exact congrArg String.mk
    (substCharsGo_inert tokens _ (substCharsGo_NoOC tokens hc s.data.length s.data (Nat.le_refl _)))

/-! ### The token values built by the workflow contain no delimiter -/

theorem toNat_charOfNat_valid {n : Nat} (h : n.isValidChar) : (Char.ofNat n).toNat = n := by
  unfold Char.ofNat
  rw [dif_pos h]
  rfl

theorem wordChar_le (c : Char) (h : isWordChar c = true) : c.toNat ≤ 122 := by
  unfold isWordChar Char.isAlpha Char.isUpper Char.isLower Char.isDigit at h
  simp only [Bool.or_eq_true, Bool.and_eq_true, decide_eq_true_eq] at h
  rcases h with (⟨_, h2⟩ | ⟨_, h2⟩) | ⟨_, h2⟩
  · exact Nat.le_trans (@UInt32.toNat_le_of_le c.val 90 (by decide) h2) (by decide)
  · exact @UInt32.toNat_le_of_le c.val 122 (by decide) h2
  · exact Nat.le_trans (@UInt32.toNat_le_of_le c.val 57 (by decide) h2) (by decide)

theorem toLower_le (c : Char) (h : c.toNat ≤ 122) : (Char.toLower c).toNat ≤ 122 := by
  unfold Char.toLower
  dsimp only []
  split_ifs with hr
  · have hv : Nat.isValidChar (c.toNat + 32) := Or.inl (by omega)
    rw [toNat_charOfNat_valid hv]
    omega
  · exact h

theorem toUpper_le (c : Char) (h : c.toNat ≤ 122) : (Char.toUpper c).toNat ≤ 122 := by
  unfold Char.toUpper
  dsimp only []
  split_ifs with hr
  · have hv : Nat.isValidChar (c.toNat - 32) := Or.inl (by omega)
    rw [toNat_charOfNat_valid hv]
    omega
  · exact h

theorem flushWord_wordChar (w : List Char) (acc : List (List Char))
    (hw : ∀ c ∈ w, isWordChar c = true)
    (hacc : ∀ ws ∈ acc, ∀ c ∈ ws, isWordChar c = true) :
    ∀ ws ∈ flushWord w acc, ∀ c ∈ ws, isWordChar c = true := by
  unfold flushWord
  split_ifs
  · exact hacc
  · intro ws hws
    rcases List.mem_append.mp hws with h | h
    · exact hacc ws h
    · rw [List.mem_singleton.mp h]
      intro c hcm
      exact hw c (List.mem_reverse.mp hcm)

theorem splitWordsGo_wordChar :
    ∀ (l w : List Char) (acc : List (List Char)),
      (∀ c ∈ w, isWordChar c = true) →
      (∀ ws ∈ acc, ∀ c ∈ ws, isWordChar c = true) →
      ∀ ws ∈ splitWordsGo l w acc, ∀ c ∈ ws, isWordChar c = true := by
  intro l
  induction l with
  | nil =>
    intro w acc hw hacc
    exact flushWord_wordChar w acc hw hacc
  | cons c rest ih =>
    intro w acc hw hacc
    unfold splitWordsGo
    by_cases h1 : isWordChar c = true
    · rw [if_neg (by simp [h1])]
      split
      · refine ih [c] (flushWord w acc) ?_ (flushWord_wordChar w acc hw hacc)
        intro x hx
        rw [List.mem_singleton.mp hx]
        exact h1
      · refine ih (c :: w) acc ?_ hacc
        intro x hx
        rcases List.mem_cons.mp hx with h | h
        · rw [h]; exact h1
        · exact hw x h
    · rw [if_pos (by simp [h1])]
      exact ih [] (flushWord w acc) (by simp) (flushWord_wordChar w acc hw hacc)

theorem splitWords_wordChar (s : String) :
    ∀ w ∈ splitWords s, ∀ c ∈ w, isWordChar c = true :=
  splitWordsGo_wordChar s.data [] [] (by simp) (by simp)

theorem joinWordsChars_le (sep : List Char) (hsep : ∀ c ∈ sep, c.toNat ≤ 122) :
    ∀ ws, (∀ w ∈ ws, ∀ c ∈ w, c.toNat ≤ 122) →
      ∀ c ∈ joinWordsChars sep ws, c.toNat ≤ 122 := by
  intro ws
  induction ws with
  | nil => simp [joinWordsChars]
  | cons w ws ih =>
    intro h c hc
    cases ws with
    | nil =>
      exact h w (List.mem_cons_self _ _) c (by simpa [joinWordsChars] using hc)
    | cons w2 ws2 =>
      simp only [joinWordsChars] at hc
      rcases List.mem_append.mp hc with h1 | h1
      · rcases List.mem_append.mp h1 with h2 | h2
        · exact h w (List.mem_cons_self _ _) c h2
        · exact hsep c h2
      · exact ih (fun w' hw' => h w' (List.mem_cons_of_mem _ hw')) c h1

theorem toLowerWord_le (w : List Char) (hw : ∀ c ∈ w, isWordChar c = true) :
    ∀ c ∈ toLowerWord w, c.toNat ≤ 122 := by
  intro c hc
  obtain ⟨c0, hc0, rfl⟩ := List.mem_map.mp hc
  exact toLower_le c0 (wordChar_le c0 (hw c0 hc0))

theorem toUpperWord_le (w : List Char) (hw : ∀ c ∈ w, isWordChar c = true) :
    ∀ c ∈ toUpperWord w, c.toNat ≤ 122 := by
  intro c hc
  obtain ⟨c0, hc0, rfl⟩ := List.mem_map.mp hc
  exact toUpper_le c0 (wordChar_le c0 (hw c0 hc0))

theorem capitalizeWord_le (w : List Char) (hw : ∀ c ∈ w, isWordChar c = true) :
    ∀ c ∈ capitalizeWord w, c.toNat ≤ 122 := by
  cases w with
  | nil => simp [capitalizeWord]
  | cons c0 r =>
    intro c hc
    rcases List.mem_cons.mp hc with h | h
    · rw [h]
      exact toUpper_le c0 (wordChar_le c0 (hw c0 (List.mem_cons_self _ _)))
    · obtain ⟨c1, hc1, rfl⟩ := List.mem_map.mp h
      exact toLower_le c1 (wordChar_le c1 (hw c1 (List.mem_cons_of_mem _ hc1)))

theorem mapped_split_le (s : String) (f : List Char → List Char)
    (hf : ∀ w, (∀ c ∈ w, isWordChar c = true) → ∀ c ∈ f w, c.toNat ≤ 122)
    (sep : String) (hsep : ∀ c ∈ sep.data, c.toNat ≤ 122) :
    ∀ c ∈ (joinWords sep ((splitWords s).map f)).data, c.toNat ≤ 122 := by
  intro c hc
  refine joinWordsChars_le sep.data hsep ((splitWords s).map f) ?_ c hc
  intro w hw
  obtain ⟨w0, hw0, rfl⟩ := List.mem_map.mp hw
  exact hf w0 (splitWords_wordChar s w0 hw0)

theorem pascalCase_le (s : String) : ∀ c ∈ (pascalCase s).data, c.toNat ≤ 122 :=
  mapped_split_le s capitalizeWord capitalizeWord_le "" (by simp)

theorem camelCase_le (s : String) : ∀ c ∈ (camelCase s).data, c.toNat ≤ 122 := by
  intro c hc
  unfold camelCase at hc
  cases hsp : splitWords s with
  | nil =>
    rw [hsp] at hc
    simp at hc
  | cons w ws =>
    rw [hsp] at hc
    refine joinWordsChars_le "".data (by simp) (toLowerWord w :: ws.map capitalizeWord) ?_ c hc
    intro w' hw'
    rcases List.mem_cons.mp hw' with h | h
    · rw [h]
      exact toLowerWord_le w (splitWords_wordChar s w (by rw [hsp]; exact List.mem_cons_self _ _))
    · obtain ⟨w0, hw0, rfl⟩ := List.mem_map.mp h
      exact capitalizeWord_le w0
        (splitWords_wordChar s w0 (by rw [hsp]; exact List.mem_cons_of_mem _ hw0))

theorem kebabCase_le (s : String) : ∀ c ∈ (kebabCase s).data, c.toNat ≤ 122 :=
  mapped_split_le s toLowerWord toLowerWord_le "-" (by decide)

theorem snakeCase_le (s : String) : ∀ c ∈ (snakeCase s).data, c.toNat ≤ 122 :=
  mapped_split_le s toLowerWord toLowerWord_le "_" (by decide)

theorem constantCase_le (s : String) : ∀ c ∈ (constantCase s).data, c.toNat ≤ 122 :=
  mapped_split_le s toUpperWord toUpperWord_le "_" (by decide)

theorem headerCase_le (s : String) : ∀ c ∈ (headerCase s).data, c.toNat ≤ 122 :=
  mapped_split_le s capitalizeWord capitalizeWord_le "-" (by decide)

theorem dotCase_le (s : String) : ∀ c ∈ (dotCase s).data, c.toNat ≤ 122 :=
  mapped_split_le s toLowerWord toLowerWord_le "." (by decide)

theorem noCase_le (s : String) : ∀ c ∈ (noCase s).data, c.toNat ≤ 122 :=
  mapped_split_le s toLowerWord toLowerWord_le " " (by decide)

theorem titleCase_le (s : String) : ∀ c ∈ (titleCase s).data, c.toNat ≤ 122 :=
  mapped_split_le s capitalizeWord capitalizeWord_le " " (by decide)

theorem lowerCase_pascal_le (s : String) :
    ∀ c ∈ (lowerCase (pascalCase s)).data, c.toNat ≤ 122 := by
  intro c hc
  have hc' : c ∈ (pascalCase s).data.map Char.toLower := hc
  obtain ⟨c0, hc0, rfl⟩ := List.mem_map.mp hc'
  exact toLower_le c0 (pascalCase_le s c0 hc0)

theorem not_mem_delims_of_le {s : String} (hs : ∀ c ∈ s.data, c.toNat ≤ 122) :
    openDelim ∉ s.data ∧ closeDelim ∉ s.data := by
  constructor <;> intro h <;> exact absurd (hs _ h) (by decide)

theorem buildTokens_clean (name : String) : CleanTokens (buildTokens name) := by
  intro kv hkv
  simp only [buildTokens, List.mem_cons, List.not_mem_nil, or_false] at hkv
  rcases hkv with h | h | h | h | h | h | h | h | h | h | h | h <;> rw [h]
  · exact ⟨by decide, by decide⟩
  · exact ⟨by decide, by decide⟩
  · exact not_mem_delims_of_le (pascalCase_le name)
  · exact not_mem_delims_of_le (lowerCase_pascal_le name)
  · exact not_mem_delims_of_le (kebabCase_le name)
  · exact not_mem_delims_of_le (camelCase_le name)
  · exact not_mem_delims_of_le (titleCase_le name)
  · exact not_mem_delims_of_le (noCase_le name)
  · exact not_mem_delims_of_le (snakeCase_le name)
  · exact not_mem_delims_of_le (constantCase_le name)
  · exact not_mem_delims_of_le (headerCase_le name)
  · exact not_mem_delims_of_le (dotCase_le name)

/-! ### Path confinement lemmas -/

theorem strStartsWith_iff (s pre : String) : strStartsWith s pre = true ↔ pre.data <+: s.data := by
  unfold strStartsWith
  exact List.isPrefixOf_iff_prefix

theorem data_append_slash (a : String) : (a ++ "/").data = a.data ++ ['/'] := by
  simp [String.data_append]

theorem strStartsWith_join_self (a b : String) : strStartsWith (joinPath a b) (a ++ "/") = true := by
  rw [strStartsWith_iff, joinPath_data, data_append_slash]
  exact ⟨b.data, by simp⟩

theorem underPath_join (a b : String) : underPath a (joinPath a b) = true := by
  unfold underPath
  rw [strStartsWith_join_self]
  simp

theorem underPath_self (a : String) : underPath a a = true := by
  simp [underPath]

theorem underPath_join_join (a b c : String) :
    underPath a (joinPath (joinPath a b) c) = true := by
  unfold underPath
  have hpre : strStartsWith (joinPath (joinPath a b) c) (a ++ "/") = true := by
    rw [strStartsWith_iff, joinPath_data, joinPath_data, data_append_slash]
    exact ⟨b.data ++ '/' :: c.data, by simp⟩
  rw [hpre]
  simp

theorem underPath_inner (cwd bn q : String) (h : strStartsWith q (bn ++ "/") = true) :
    underPath (resolvePath cwd bn) (joinPath cwd q) = true := by
  unfold underPath
  have hpre : strStartsWith (joinPath cwd q) (resolvePath cwd bn ++ "/") = true := by
    rw [strStartsWith_iff] at h ⊢
    obtain ⟨t, ht⟩ := h
    rw [joinPath_data]
    have hd : (resolvePath cwd bn ++ "/").data = (cwd.data ++ '/' :: bn.data) ++ ['/'] := by
      show (joinPath cwd bn ++ "/").data = _
      rw [data_append_slash, joinPath_data]
    rw [hd]
    refine ⟨t, ?_⟩
    rw [← ht, data_append_slash]
    simp
  rw [hpre]
  simp

theorem filesUnder_append (a b : List (String × FsNode)) (r : String) :
    filesUnder (a ++ b) r = filesUnder a r ++ filesUnder b r := by
  unfold filesUnder
  exact List.filterMap_append a b _

theorem strDrop_joinPath (r p : String) : strDrop (joinPath r p) (r.length + 1) = p := by
  unfold strDrop
  rw [joinPath_data]
  have hsplit : r.data ++ '/' :: p.data = (r.data ++ ['/']) ++ p.data := by simp
  have hlen : (r.data ++ ['/']).length = r.length + 1 := by
    rw [List.length_append]
    rfl
  rw [hsplit, List.drop_left' hlen]

theorem filesUnder_extract (r : String) (archive : List (String × String)) :
    filesUnder (archive.map (fun pc => (joinPath r pc.1, FsNode.file pc.2))) r = archive := by
  induction archive with
  | nil => rfl
  | cons pc rest ih =>
    obtain ⟨p, c⟩ := pc
    simp only [List.map_cons, filesUnder, List.filterMap_cons] at ih ⊢
    rw [if_pos (strStartsWith_join_self r p)] at *
    rw [strDrop_joinPath]
    rw [ih]

theorem filesUnder_eq_nil (fs : List (String × FsNode)) (r : String)
    (h : ∀ pn ∈ fs, pn.2 = FsNode.dir ∨ strStartsWith pn.1 (r ++ "/") = false) :
    filesUnder fs r = [] := by
  induction fs with
  | nil => rfl
  | cons pn rest ih =>
    obtain ⟨p, n⟩ := pn
    unfold filesUnder at ih ⊢
    rw [List.filterMap_cons]
    have htail : List.filterMap _ rest = [] :=
      ih (fun pn hm => h pn (List.mem_cons_of_mem _ hm))
    cases n with
    | dir =>
      dsimp only []
      exact htail
    | file c =>
      rcases h (p, FsNode.file c) (List.mem_cons_self _ _) with h1 | h1
      · exact absurd h1 (by simp)
      · dsimp only []
        rw [if_neg (by simp [h1])]
        exact htail

/-! ### Claim theorems -/

/-- C10: `canUseNpm` fails open: it returns `true` whenever the probe
cannot be completed (the spawn throws, the joined output is not a string,
or no `; cwd = ` line is present), and it returns `false` exactly when a
cwd line is present whose extracted path differs from the given root. -/
theorem canUseNpm_failsOpen (root : String) (lines : List String) :
    canUseNpm NpmProbe.spawnThrew root = true ∧
    canUseNpm NpmProbe.nonString root = true ∧
    (findCwdLine lines = none → canUseNpm (NpmProbe.output lines) root = true) ∧
    (canUseNpm (NpmProbe.output lines) root = false ↔
      ∃ p, findCwdLine lines = some p ∧ p ≠ root) := by
  refine ⟨rfl, rfl, ?_, ?_⟩
  · intro h
    simp [canUseNpm, h]
  · constructor
    · intro h
      simp only [canUseNpm] at h
      cases hf : findCwdLine lines with
      | none => rw [hf] at h; simp at h
      | some p =>
        rw [hf] at h
        refine ⟨p, rfl, ?_⟩
        intro heq
        subst heq
        simp at h
    · rintro ⟨p, hp, hne⟩
      simp only [canUseNpm]
      rw [hp]
      simp [hne]

theorem canUseNpm_failsOpen_witness :
    canUseNpm (NpmProbe.output ["not a cwd line"]) "/root" = true :=
  (canUseNpm_failsOpen "/root" ["not a cwd line"]).2.2.1 (by decide)

/-- C6: `validateProjectRoot` throws when a non-directory occupies the
target path; creates the directory when the path is absent; and throws a
conflict error, overwriting and removing nothing (at most the empty root
directory entry is added), when a `package.json` already exists inside. -/
theorem validateProjectRoot_spec (probe : NpmProbe) (root : String) (useYarn : Bool)
    (st : WorldState) :
    (existsFs st.fs root = true → isDirAt st.fs root = false →
      validateProjectRootRun probe root useYarn st =
        (st, some ("Found a non-directory at " ++ root ++ "."))) ∧
    (existsFs st.fs root = false →
      (validateProjectRootRun probe root useYarn st).1.fs = (root, FsNode.dir) :: st.fs) ∧
    ((existsFs st.fs root = true → isDirAt st.fs root = true) →
      existsFs st.fs (joinPath root "package.json") = true →
      (validateProjectRootRun probe root useYarn st).2 =
        some ("A Node.js project already exists at " ++ root ++ ".") ∧
      ((validateProjectRootRun probe root useYarn st).1.fs = st.fs ∨
       (validateProjectRootRun probe root useYarn st).1.fs = (root, FsNode.dir) :: st.fs)) := by
  refine ⟨?_, ?_, ?_⟩
  · intro hex hdir
    unfold validateProjectRootRun
    rw [if_pos (by simp [hex, hdir])]
  · intro hex
    have hens : ensureDirFs st.fs root = (root, FsNode.dir) :: st.fs :=
      if_neg (by simp [hex])
    unfold validateProjectRootRun
    rw [if_neg (by simp [hex])]
    split_ifs <;> simp [hens]
  · intro hdir hpkg
    have hens : existsFs (ensureDirFs st.fs root) (joinPath root "package.json") = true := by
      unfold ensureDirFs
      split
      · exact hpkg
      · rw [existsFs_cons_ne _ _ _ _ (joinPath_ne_self root "package.json")]
        exact hpkg
    unfold validateProjectRootRun
    rw [if_neg (by
      intro hcontra
      simp at hcontra
      exact absurd (hdir hcontra.1) (by simp [hcontra.2]))]
    rw [if_pos hens]
    refine ⟨rfl, ?_⟩
    rcases ensureDirFs_cases st.fs root with h | h
    · exact Or.inl (by simp [h])
    · exact Or.inr (by simp [h])

theorem validateProjectRoot_spec_witness :
    (validateProjectRootRun (NpmProbe.output []) "/w/app" false
        { fs := [("/w/app", FsNode.dir), ("/w/app/package.json", FsNode.file "x")], log := [] }).2 =
      some "A Node.js project already exists at /w/app." ∧
    ((validateProjectRootRun (NpmProbe.output []) "/w/app" false
        { fs := [("/w/app", FsNode.dir), ("/w/app/package.json", FsNode.file "x")], log := [] }).1.fs =
      [("/w/app", FsNode.dir), ("/w/app/package.json", FsNode.file "x")] ∨
     (validateProjectRootRun (NpmProbe.output []) "/w/app" false
        { fs := [("/w/app", FsNode.dir), ("/w/app/package.json", FsNode.file "x")], log := [] }).1.fs =
      ("/w/app", FsNode.dir) :: [("/w/app", FsNode.dir), ("/w/app/package.json", FsNode.file "x")]) :=
  (validateProjectRoot_spec (NpmProbe.output []) "/w/app" false
      { fs := [("/w/app", FsNode.dir), ("/w/app/package.json", FsNode.file "x")], log := [] }).2.2
    (by decide) (by decide)

/-- C7: for the project name `my-cool-app`, the token set built by
`createTemplateProject` contains the PascalCase value `MyCoolApp`, the
kebab-case value `my-cool-app`, the snake_case value `my_cool_app` and the
CONSTANT_CASE value `MY_COOL_APP`. -/
theorem buildTokens_myCoolApp :
    lookupToken (buildTokens "my-cool-app") "namePascalCase" = "MyCoolApp" ∧
    lookupToken (buildTokens "my-cool-app") "nameKebabCase" = "my-cool-app" ∧
    lookupToken (buildTokens "my-cool-app") "nameSnakeCase" = "my_cool_app" ∧
    lookupToken (buildTokens "my-cool-app") "nameConstantCase" = "MY_COOL_APP" := by
  refine ⟨?_, ?_, ?_, ?_⟩ <;> decide

/-- C9 counterexample: the lower-case token is not the lower-case
transformation of the base name: for `my-cool-app` it is `mycoolapp`
(the lower-casing of the PascalCase form), not `my-cool-app`. -/
theorem buildTokens_lowerCase_not_of_name :
    lookupToken (buildTokens "my-cool-app") "nameLowerCase" ≠ lowerCase "my-cool-app" := by
  decide

/-- C9 (amended): every token derived by `createTemplateProject` except
`nameLowerCase` is the corresponding case-transformation of the base name;
`nameLowerCase` is the lower-case transformation of the PascalCase
transformation of the base name. -/
theorem buildTokens_are_transforms (name : String) :
    lookupToken (buildTokens name) "namePascalCase" = pascalCase name ∧
    lookupToken (buildTokens name) "nameLowerCase" = lowerCase (pascalCase name) ∧
    lookupToken (buildTokens name) "nameKebabCase" = kebabCase name ∧
    lookupToken (buildTokens name) "nameCamelCase" = camelCase name ∧
    lookupToken (buildTokens name) "nameTitleCase" = titleCase name ∧
    lookupToken (buildTokens name) "nameNoCase" = noCase name ∧
    lookupToken (buildTokens name) "nameSnakeCase" = snakeCase name ∧
    lookupToken (buildTokens name) "nameConstantCase" = constantCase name ∧
    lookupToken (buildTokens name) "nameHeaderCase" = headerCase name ∧
    lookupToken (buildTokens name) "nameDotCase" = dotCase name := by
  refine ⟨rfl, rfl, rfl, rfl, rfl, rfl, rfl, rfl, rfl, rfl⟩

/-- On a valid package name, `validatePackageName` is a silent no-op. -/
theorem validatePackageNameRun_ok (v : ValidationResult) (packageName : String)
    (st : WorldState) (hv : v.validForNewPackages = true) :
    validatePackageNameRun v packageName st = (st, none) := by
  unfold validatePackageNameRun
  rw [if_pos (by simp [hv])]

/-- On an invalid package name, `validatePackageName` throws and only logs:
the file system is untouched. -/
theorem validatePackageNameRun_fail (v : ValidationResult) (packageName : String)
    (st : WorldState) (hv : v.validForNewPackages = false) :
    (validatePackageNameRun v packageName st).2 =
      some ("Unable to create project with name " ++ packageName ++ ".") ∧
    (validatePackageNameRun v packageName st).1.fs = st.fs := by
  unfold validatePackageNameRun
  rw [if_neg (by simp [hv])]
  refine ⟨rfl, ?_⟩
  dsimp only []
  split_ifs
  · rfl
  · rw [foldl_logMsg_fs]
    rfl

/-- C2: for every invalid package name (one `validate-npm-package-name`
rejects for new packages), `createProject` throws before any file-system
operation: the error is raised by the name validation and the file system
is unchanged. -/
theorem createProject_invalidName (env : Env) (packageName : String) (bare : Bool)
    (cwd : String) (st : WorldState)
    (hv : env.validation.validForNewPackages = false) :
    (createProjectRun env packageName bare cwd st).2 =
      some ("Unable to create project with name " ++ packageName ++ ".") ∧
    (createProjectRun env packageName bare cwd st).1.fs = st.fs := by
  obtain ⟨h2, h1⟩ := validatePackageNameRun_fail env.validation packageName st hv
  have hvp : validatePackageNameRun env.validation packageName st =
      ((validatePackageNameRun env.validation packageName st).1,
       some ("Unable to create project with name " ++ packageName ++ ".")) := by
    rw [← h2]
  constructor
  · unfold createProjectRun
    rw [hvp]
  · unfold createProjectRun
    rw [hvp]
    exact h1

theorem createProject_invalidName_witness :
    invalidNameEnv.validation.validForNewPackages = false ∧
    (createProjectRun invalidNameEnv "MyApp" false "/w" emptyState).2 =
      some ("Unable to create project with name " ++ "MyApp" ++ ".") ∧
    (createProjectRun invalidNameEnv "MyApp" false "/w" emptyState).1.fs = emptyState.fs :=
  ⟨rfl, createProject_invalidName invalidNameEnv "MyApp" false "/w" emptyState rfl⟩

/-- C1 counterexample: with an absent target root, `createProject` does
reach the `Unable to start an NPM process` error with yarn unavailable and
an npm probe pointing elsewhere, but the file system at that moment is not
unchanged: `ensureDirSync` has already created the root directory. -/
theorem createProject_npmUntrusted_fs_changed :
    (createProjectRun npmElsewhereEnv "app" false "/home" emptyState).2 =
      some "Unable to start an NPM process in /home/app." ∧
    (createProjectRun npmElsewhereEnv "app" false "/home" emptyState).1.fs ≠ emptyState.fs := by
  decide

/-- C1 (amended): when yarn is not selected and `canUseNpm` rejects the
target root (and no earlier validation fires), `createProject` fails at
`validateProjectRoot` with the `Unable to start an NPM process` error
before any file is written: at that moment the file system differs from the
initial one at most by the creation of the empty root directory. -/
theorem createProject_npmUntrusted_aborts (env : Env) (packageName : String) (bare : Bool)
    (cwd : String) (st : WorldState)
    (hval : env.validation.validForNewPackages = true)
    (hyarn : env.yarnAvailable = false)
    (hnpm : canUseNpm env.npmProbe (resolvePath cwd (basenameOf packageName)) = false)
    (hnotbad : ¬(existsFs st.fs (resolvePath cwd (basenameOf packageName)) = true ∧
        isDirAt st.fs (resolvePath cwd (basenameOf packageName)) = false))
    (hnopkg : existsFs (ensureDirFs st.fs (resolvePath cwd (basenameOf packageName)))
        (joinPath (resolvePath cwd (basenameOf packageName)) "package.json") = false) :
    (createProjectRun env packageName bare cwd st).2 =
      some ("Unable to start an NPM process in " ++
        resolvePath cwd (basenameOf packageName) ++ ".") ∧
    ((createProjectRun env packageName bare cwd st).1.fs = st.fs ∨
     (createProjectRun env packageName bare cwd st).1.fs =
       (resolvePath cwd (basenameOf packageName), FsNode.dir) :: st.fs) := by
  have hvp := validatePackageNameRun_ok env.validation packageName st hval
  have hvr : validateProjectRootRun env.npmProbe (resolvePath cwd (basenameOf packageName))
      env.yarnAvailable st =
      ({ st with fs := ensureDirFs st.fs (resolvePath cwd (basenameOf packageName)) },
       some ("Unable to start an NPM process in " ++
         resolvePath cwd (basenameOf packageName) ++ ".")) := by
    unfold validateProjectRootRun
    rw [if_neg (by
      simp only [Bool.and_eq_true, Bool.not_eq_true']
      intro hc
      exact hnotbad ⟨hc.1, hc.2⟩)]
    rw [if_neg (by simp [hnopkg])]
    rw [if_neg (by simp [hyarn])]
    rw [if_pos (by simp [hnpm])]
  constructor
  · unfold createProjectRun
    rw [hvp]
    dsimp only []
    rw [hvr]
  · unfold createProjectRun
    rw [hvp]
    dsimp only []
    rw [hvr]
    rcases ensureDirFs_cases st.fs (resolvePath cwd (basenameOf packageName)) with h | h
    · exact Or.inl (by simp [h])
    · exact Or.inr (by simp [h])

theorem createProject_npmUntrusted_aborts_witness :
    (createProjectRun npmElsewhereEnv "widget" false "/home" emptyState).2 =
      some ("Unable to start an NPM process in " ++
        resolvePath "/home" (basenameOf "widget") ++ ".") ∧
    ((createProjectRun npmElsewhereEnv "widget" false "/home" emptyState).1.fs = emptyState.fs ∨
     (createProjectRun npmElsewhereEnv "widget" false "/home" emptyState).1.fs =
       (resolvePath "/home" (basenameOf "widget"), FsNode.dir) :: emptyState.fs) :=
  createProject_npmUntrusted_aborts npmElsewhereEnv "widget" false "/home" emptyState
    rfl rfl (by decide) (by decide) (by decide)

/-- C4: for every non-bare invocation that reaches the download and gets no
stream, `createProject` throws the download error (whose text asks to try
again), and the warning suggesting a re-run with the `--bare` flag is
logged. -/
theorem createProject_downloadNone (env : Env) (packageName : String) (cwd : String)
    (st : WorldState)
    (hval : env.validation.validForNewPackages = true)
    (hrv : (validateProjectRootRun env.npmProbe (resolvePath cwd (basenameOf packageName))
        env.yarnAvailable st).2 = none)
    (hdl : env.download = none) :
    (createProjectRun env packageName false cwd st).2 =
      some "Unable to download template project from examples.diez.org. Please try again." ∧
    (LogLevel.warning,
      "If you would like to generate an empty project, you can re-run this command with --bare.")
      ∈ (createProjectRun env packageName false cwd st).1.log := by
  have hvp := validatePackageNameRun_ok env.validation packageName st hval
  have hvr := validateProjectRootRun_ok env.npmProbe
    (resolvePath cwd (basenameOf packageName)) env.yarnAvailable st hrv
  unfold createProjectRun
  rw [hvp]
  dsimp only []
  rw [hvr]
  dsimp only []
  unfold acquireTemplate
  rw [if_neg (by simp)]
  rw [createTemplateProjectRun_downloadNone env cwd packageName _ hdl]
  dsimp only []
  refine ⟨rfl, ?_⟩
  simp [logMsg]

theorem createProject_downloadNone_witness :
    (createProjectRun { sampleEnv with download := none } "my-app" false "/w" emptyState).2 =
      some "Unable to download template project from examples.diez.org. Please try again." ∧
    (LogLevel.warning,
      "If you would like to generate an empty project, you can re-run this command with --bare.")
      ∈ (createProjectRun { sampleEnv with download := none } "my-app" false "/w" emptyState).1.log :=
  createProject_downloadNone { sampleEnv with download := none } "my-app" "/w" emptyState
    rfl (by decide) rfl

/-- C5: when the earlier stages succeed, the template is materialized and
the dependency install fails, `createProject` does not throw: it logs the
manual-install warning and still logs the success report. -/
theorem createProject_installFailure (env : Env) (packageName : String) (bare : Bool)
    (cwd : String) (st : WorldState)
    (hval : env.validation.validForNewPackages = true)
    (hrv : (validateProjectRootRun env.npmProbe (resolvePath cwd (basenameOf packageName))
        env.yarnAvailable st).2 = none)
    (hacq : bare = true ∨ env.download.isSome = true)
    (hinst : env.installSucceeds = false) :
    (createProjectRun env packageName bare cwd st).2 = none ∧
    (LogLevel.warning,
      "You may need to run " ++ (if env.yarnAvailable then "yarn" else "npm") ++
        " install before diez commands will work.")
      ∈ (createProjectRun env packageName bare cwd st).1.log ∧
    (LogLevel.info,
      "Success! A new Diez (DS) has been created at " ++
        resolvePath cwd (basenameOf packageName) ++ ".\n")
      ∈ (createProjectRun env packageName bare cwd st).1.log := by
  have hvp := validatePackageNameRun_ok env.validation packageName st hval
  have hvr := validateProjectRootRun_ok env.npmProbe
    (resolvePath cwd (basenameOf packageName)) env.yarnAvailable st hrv
  unfold createProjectRun
  rw [hvp]
  dsimp only []
  rw [hvr]
  dsimp only []
  rcases Bool.eq_false_or_eq_true bare with hb | hb
  · subst hb
    rw [acquireTemplate_bare]
    dsimp only []
    refine ⟨installAndReport_ok _ _ _ _ _ _, ?_, ?_⟩
    · exact installAndReport_log_installWarning env env.yarnAvailable true cwd
        (resolvePath cwd (basenameOf packageName)) _ hinst
    · exact installAndReport_log_success env env.yarnAvailable true cwd
        (resolvePath cwd (basenameOf packageName)) _
  · subst hb
    rcases hacq with hacq | hacq
    · exact absurd hacq (by simp)
    · obtain ⟨archive, harch⟩ := Option.isSome_iff_exists.mp hacq
      unfold acquireTemplate
      rw [if_neg (by simp)]
      rw [createTemplateProjectRun_some env cwd packageName _ archive harch]
      dsimp only []
      refine ⟨installAndReport_ok _ _ _ _ _ _, ?_, ?_⟩
      · exact installAndReport_log_installWarning env env.yarnAvailable false cwd
          (resolvePath cwd (basenameOf packageName)) _ hinst
      · exact installAndReport_log_success env env.yarnAvailable false cwd
          (resolvePath cwd (basenameOf packageName)) _


theorem createProject_installFailure_witness :
    (createProjectRun { sampleEnv with installSucceeds := false } "my-app" false "/w"
      emptyState).2 = none ∧
    (LogLevel.warning,
      "You may need to run " ++
        (if { sampleEnv with installSucceeds := false }.yarnAvailable then "yarn" else "npm") ++
        " install before diez commands will work.")
      ∈ (createProjectRun { sampleEnv with installSucceeds := false } "my-app" false "/w"
          emptyState).1.log ∧
    (LogLevel.info,
      "Success! A new Diez (DS) has been created at " ++
        resolvePath "/w" (basenameOf "my-app") ++ ".\n")
      ∈ (createProjectRun { sampleEnv with installSucceeds := false } "my-app" false "/w"
          emptyState).1.log :=
  createProject_installFailure { sampleEnv with installSucceeds := false } "my-app" false "/w"
    emptyState rfl (by decide) (Or.inr rfl) rfl

/-- C8: token substitution is idempotent.  For every template tree and
every token set built by `createTemplateProject` (whose values never
contain the placeholder delimiters), applying the substitution pass twice
yields the same tree as applying it once. -/
theorem tokenSubstitution_idempotent (name : String) (files : List (String × String)) :
    applyTokensToTree (buildTokens name) (applyTokensToTree (buildTokens name) files) =
      applyTokensToTree (buildTokens name) files := by
  unfold applyTokensToTree
  rw [List.map_map]
  apply List.map_congr_left
  intro pc _
  simp only [Function.comp_apply]
  rw [substituteTokens_idem _ (buildTokens_clean name) pc.1,
      substituteTokens_idem _ (buildTokens_clean name) pc.2]

/-- C3: frame condition of a successful `createProject`.  When the
(substituted) archive paths all lie below `basename(packageName)` and the
temporary extraction root is fresh, every entry the run adds to the file
system lies below the project root `<cwd>/<basename(packageName)>` or below
the temporary scratch directory; the rest of the file system is exactly the
initial one. -/
theorem createProject_writes_confined (env : Env) (packageName : String) (bare : Bool)
    (cwd : String) (st : WorldState)
    (hsub : ∀ pc ∈ env.download.getD [], strStartsWith
        (substituteTokens (buildTokens packageName) pc.1) (basenameOf packageName ++ "/") = true)
    (hfresh : ∀ pn ∈ st.fs,
        strStartsWith pn.1 (resolvePath env.tmpName "examples" ++ "/") = false)
    (hok : (createProjectRun env packageName bare cwd st).2 = none) :
    ∃ ws, (createProjectRun env packageName bare cwd st).1.fs = ws ++ st.fs ∧
      ∀ pn ∈ ws, underPath (resolvePath cwd (basenameOf packageName)) pn.1 = true ∨
        underPath env.tmpName pn.1 = true := by
  by_cases hval : env.validation.validForNewPackages = true
  case neg =>
    exfalso
    obtain ⟨hv2, _⟩ := validatePackageNameRun_fail env.validation packageName st
      (eq_false_of_ne_true hval)
    have hvp : validatePackageNameRun env.validation packageName st =
        ((validatePackageNameRun env.validation packageName st).1,
         some ("Unable to create project with name " ++ packageName ++ ".")) := by
      rw [← hv2]
    unfold createProjectRun at hok
    rw [hvp] at hok
    simp at hok
  case pos =>
  have hvp := validatePackageNameRun_ok env.validation packageName st hval
  cases hrvo : (validateProjectRootRun env.npmProbe (resolvePath cwd (basenameOf packageName))
      env.yarnAvailable st).2 with
  | some e =>
    exfalso
    have hvr : validateProjectRootRun env.npmProbe (resolvePath cwd (basenameOf packageName))
        env.yarnAvailable st =
        ((validateProjectRootRun env.npmProbe (resolvePath cwd (basenameOf packageName))
          env.yarnAvailable st).1, some e) := by
      rw [← hrvo]
    unfold createProjectRun at hok
    rw [hvp] at hok
    dsimp only [] at hok
    rw [hvr] at hok
    simp at hok
  | none =>
    have hvr := validateProjectRootRun_ok env.npmProbe
      (resolvePath cwd (basenameOf packageName)) env.yarnAvailable st hrvo
    unfold createProjectRun at hok ⊢
    rw [hvp] at hok ⊢
    dsimp only [] at hok ⊢
    rw [hvr] at hok ⊢
    dsimp only [] at hok ⊢
    obtain ⟨ws0, hws0, hws0mem, hws0dir⟩ :
        ∃ ws0, ensureDirFs st.fs (resolvePath cwd (basenameOf packageName)) = ws0 ++ st.fs ∧
          (∀ pn ∈ ws0, underPath (resolvePath cwd (basenameOf packageName)) pn.1 = true ∨
            underPath env.tmpName pn.1 = true) ∧
          ∀ pn ∈ ws0, pn.2 = FsNode.dir := by
      rcases ensureDirFs_cases st.fs (resolvePath cwd (basenameOf packageName)) with h | h
      · exact ⟨[], by simp [h], by simp, by simp⟩
      · refine ⟨[(resolvePath cwd (basenameOf packageName), FsNode.dir)], by simp [h], ?_, ?_⟩
        · intro pn hpn
          rw [List.mem_singleton.mp hpn]
          exact Or.inl (underPath_self _)
        · intro pn hpn
          rw [List.mem_singleton.mp hpn]
    rcases Bool.eq_false_or_eq_true bare with hb | hb
    · subst hb
      rw [acquireTemplate_bare] at hok ⊢
      dsimp only [] at hok ⊢
      rw [installAndReport_fs]
      refine ⟨env.bundledTemplate.map (fun pc =>
          (joinPath (resolvePath cwd (basenameOf packageName))
            (substituteTokens (bareTokens env packageName) pc.1),
           FsNode.file (substituteTokens (bareTokens env packageName) pc.2))) ++ ws0, ?_, ?_⟩
      · unfold outputTemplatePackage
        rw [hws0, List.append_assoc]
      · intro pn hpn
        rcases List.mem_append.mp hpn with h1 | h1
        · obtain ⟨pc, hpc, rfl⟩ := List.mem_map.mp h1
          exact Or.inl (underPath_join _ _)
        · exact hws0mem pn h1
    · subst hb
      cases harch : env.download with
      | none =>
        exfalso
        unfold acquireTemplate at hok
        rw [if_neg (by simp)] at hok
        rw [createTemplateProjectRun_downloadNone env cwd packageName _ harch] at hok
        simp at hok
      | some archive =>
        unfold acquireTemplate at hok ⊢
        rw [if_neg (by simp)] at hok ⊢
        rw [createTemplateProjectRun_some env cwd packageName _ archive harch] at hok ⊢
        dsimp only [] at hok ⊢
        rw [installAndReport_fs]
        obtain ⟨ws1, hws1, hws1mem, hws1dir⟩ :
            ∃ ws1, ensureDirFs
              (ensureDirFs st.fs (resolvePath cwd (basenameOf packageName)))
              (resolvePath env.tmpName "examples") =
              ws1 ++ ensureDirFs st.fs (resolvePath cwd (basenameOf packageName)) ∧
            (∀ pn ∈ ws1, underPath env.tmpName pn.1 = true) ∧
            ∀ pn ∈ ws1, pn.2 = FsNode.dir := by
          rcases ensureDirFs_cases
            (ensureDirFs st.fs (resolvePath cwd (basenameOf packageName)))
            (resolvePath env.tmpName "examples") with h | h
          · exact ⟨[], by simp [h], by simp, by simp⟩
          · refine ⟨[(resolvePath env.tmpName "examples", FsNode.dir)], by simp [h], ?_, ?_⟩
            · intro pn hpn
              rw [List.mem_singleton.mp hpn]
              exact underPath_join env.tmpName "examples"
            · intro pn hpn
              rw [List.mem_singleton.mp hpn]
        have hfu : filesUnder (extractArchive (resolvePath env.tmpName "examples") archive
            (ensureDirFs (ensureDirFs st.fs (resolvePath cwd (basenameOf packageName)))
              (resolvePath env.tmpName "examples")))
            (resolvePath env.tmpName "examples") = archive := by
          unfold extractArchive
          rw [filesUnder_append, filesUnder_extract]
          have hnil : filesUnder (ensureDirFs
              (ensureDirFs st.fs (resolvePath cwd (basenameOf packageName)))
              (resolvePath env.tmpName "examples"))
              (resolvePath env.tmpName "examples") = [] := by
            apply filesUnder_eq_nil
            intro pn hpn
            rw [hws1] at hpn
            rcases List.mem_append.mp hpn with h1 | h1
            · exact Or.inl (hws1dir pn h1)
            · rw [hws0] at h1
              rcases List.mem_append.mp h1 with h2 | h2
              · exact Or.inl (hws0dir pn h2)
              · exact Or.inr (hfresh pn h2)
          rw [hnil, List.append_nil]
        rw [hfu]
        refine ⟨archive.map (fun pc =>
            (joinPath cwd (substituteTokens (buildTokens packageName) pc.1),
             FsNode.file (substituteTokens (buildTokens packageName) pc.2))) ++
          (archive.map (fun pc =>
            (joinPath (resolvePath env.tmpName "examples") pc.1, FsNode.file pc.2)) ++
          (ws1 ++ ws0)), ?_, ?_⟩
        · unfold outputTemplatePackage extractArchive
          rw [hws1, hws0]
          simp [List.append_assoc]
        · intro pn hpn
          rcases List.mem_append.mp hpn with h1 | h1
          · obtain ⟨pc, hpc, rfl⟩ := List.mem_map.mp h1
            refine Or.inl (underPath_inner cwd (basenameOf packageName) _ (hsub pc ?_))
            rw [harch]
            simpa using hpc
          · rcases List.mem_append.mp h1 with h2 | h2
            · obtain ⟨pc, hpc, rfl⟩ := List.mem_map.mp h2
              exact Or.inr (underPath_join_join env.tmpName "examples" pc.1)
            · rcases List.mem_append.mp h2 with h3 | h3
              · exact Or.inr (hws1mem pn h3)
              · exact hws0mem pn h3

theorem createProject_writes_confined_witness :
    ∃ ws, (createProjectRun sampleEnv "my-app" false "/w" emptyState).1.fs =
        ws ++ emptyState.fs ∧
      ∀ pn ∈ ws, underPath (resolvePath "/w" (basenameOf "my-app")) pn.1 = true ∨
        underPath sampleEnv.tmpName pn.1 = true :=
  createProject_writes_confined sampleEnv "my-app" false "/w" emptyState
    (by decide) (by decide) (by decide)

end Diez

